import Mathlib

/-!
Verification of the pagination/accumulation/termination pipeline of
`api_collector.py` (Historico_Inventario).

The Python source is shallowly embedded below:
* pure helpers (`build_url`, `extract_message_data`, the chunk slicing of
  `save_data_csv_chunked`) become Lean functions over lists and strings;
* the driver loop of `main` becomes explicit state passing
  (`main_loop_aux`), with the environment (HTTP responses, timeouts,
  transport errors, operator interrupts) given as an oracle
  `Nat → Event` indexed by page number, and `datetime.now()` given as an
  oracle `Nat → String`;
* DataFrames become `List Rec` where a `Rec` is an association list of
  field name to value, mirroring the records of the JSON `message` array
  plus the two metadata columns added by `fetch_data_page`.
-/

namespace ApiCollector

/-- A scalar field value of a record: a string or a number (the only shapes
the embedded claims need to distinguish). -/
inductive Val
  | s (x : String)
  | n (x : Nat)
  deriving DecidableEq

/-- A record: ordered field-name/value pairs, as one element of the JSON
`message` array (sparse schema tolerated, so just an association list). -/
abbrev Rec := List (String × Val)

/-- PAGE_SIZE = 15000 (registros por página). -/
def PAGE_SIZE : Nat := 15000

/-- MAX_PAGES = 47 (hard page-count ceiling of the driver loop). -/
def MAX_PAGES : Nat := 47

/-- total_expected = 700000 in `main`. -/
def TOTAL_EXPECTED : Nat := 700000

/-- rows_per_chunk = 400000 in `save_data_csv_chunked`. -/
def ROWS_PER_CHUNK : Nat := 400000

/-! ## URL builder (`build_url`) -/

/-- Safe characters of Python's `urllib.parse.quote` with its default
`safe='/'`: ASCII letters, digits, `_ . - ~` and `/`. -/
def isSafeChar (c : Char) : Bool :=
  ('A' ≤ c && c ≤ 'Z') || ('a' ≤ c && c ≤ 'z') || ('0' ≤ c && c ≤ '9') ||
  c = '_' || c = '.' || c = '-' || c = '~' || c = '/'

/-- Uppercase hex digit of a value below 16. -/
def hexDigit (n : Nat) : Char :=
  if n < 10 then Char.ofNat (48 + n) else Char.ofNat (55 + n)

/-- Percent-encoding `%XX` of one byte. -/
def percentByte (b : Nat) : List Char :=
  ['%', hexDigit (b / 16), hexDigit (b % 16)]

/-- UTF-8 encoding of one Unicode code point, as a list of byte values. -/
def utf8EncodeChar (c : Nat) : List Nat :=
  if c < 0x80 then [c]
  else if c < 0x800 then [0xC0 + c / 64, 0x80 + c % 64]
  else if c < 0x10000 then
    [0xE0 + c / 4096, 0x80 + (c / 64) % 64, 0x80 + c % 64]
  else
    [0xF0 + c / 262144, 0x80 + (c / 4096) % 64, 0x80 + (c / 64) % 64,
     0x80 + c % 64]

/-- Python `urllib.parse.quote`: safe characters pass through, every other
character is percent-encoded byte by byte (UTF-8). -/
def quote (s : String) : String :=
  String.mk ((s.data.map (fun c =>
    if isSafeChar c then [c]
    else ((utf8EncodeChar c.toNat).map percentByte).flatten)).flatten)

/-- `build_url(endpoint, params)`: percent-encode each value and join the
parameters with `&` after `?`.  `BASE_URL` comes from the environment, so it
is a parameter here. -/
def build_url (baseUrl endpoint : String) (params : List (String × String)) :
    String :=
  baseUrl ++ endpoint ++ "?" ++
    String.intercalate "&" (params.map (fun kv => kv.1 ++ "=" ++ quote kv.2))

/-! ## Page fetcher (`extract_message_data`, `fetch_data_page`) -/

/-- Shape of a syntactically valid JSON response body, as far as
`extract_message_data` inspects it: a dict with a list-valued `message`
key, a dict whose `message` is not a list, or a dict without `message`. -/
inductive Body
  | msgList (recs : List Rec)
  | msgNonList
  | noMessage
  deriving DecidableEq

/-- Outcome of one HTTP GET as seen by `fetch_data_page`: a parsed body, a
`requests.exceptions.Timeout`, or any other exception (connection failure,
non-2xx via `raise_for_status`, malformed JSON, ...). -/
inductive FetchOut
  | ok (body : Body)
  | timeout
  | error
  deriving DecidableEq

/-- `extract_message_data`: return the `message` array if present and a
list, otherwise `None`. -/
def extract_message_data : Body → Option (List Rec)
  | Body.msgList recs => some recs
  | Body.msgNonList => none
  | Body.noMessage => none

/-- The two metadata columns `fetch_data_page` appends to every row:
`df["load_timestamp"] = datetime.now().isoformat()` and
`df["page_number"] = page_number`. -/
def stamp (ts : String) (page : Nat) (r : Rec) : Rec :=
  r ++ [("load_timestamp", Val.s ts), ("page_number", Val.n page)]

/-- `fetch_data_page`: returns `(df, has_more_pages)`.  A timeout yields
`(None, True)`; any other exception yields `(None, False)`; a missing or
empty `message` array yields `(None, False)` (the `if not message_array`
and `df.empty` checks); a nonempty page is stamped with the metadata
columns and `has_more_pages = len(df) >= expected_records` with
`expected_records = PAGE_SIZE`. -/
def fetch_data_page (o : FetchOut) (ts : String) (page : Nat) :
    Option (List Rec) × Bool :=
  match o with
  | FetchOut.timeout => (none, true)
  | FetchOut.error => (none, false)
  | FetchOut.ok body =>
    match extract_message_data body with
    | none => (none, false)
    | some [] => (none, false)
    | some (r :: rs) =>
      (some ((r :: rs).map (stamp ts page)),
       decide (PAGE_SIZE ≤ (r :: rs).length))

/-! ## Chunked writer (`save_data_csv_chunked`) -/

/-- Filename of one chunk:
`f"{base_filename}_part{chunk_num + 1}_of{total_chunks}.csv"` with
`base_filename = f"Historico_{timestamp}"`. -/
def mkChunkName (ts : String) (i total : Nat) : String :=
  "Historico_" ++ ts ++ "_part" ++ toString (i + 1) ++ "_of" ++
    toString total ++ ".csv"

/-- `save_data_csv_chunked`: `total_chunks = len(df) // 400000 + 1`; for
each `chunk_num` the slice `df.iloc[start:end]` with
`start = chunk_num * 400000` and `end = min((chunk_num+1) * 400000, len)`
is written (filename, rows) unless it is empty.  The wall-clock timestamp
of the capture is a parameter `ts`. -/
def save_data_csv_chunked (ts : String) (df : List Rec) :
    List (String × List Rec) :=
  let total := df.length / ROWS_PER_CHUNK + 1
  (List.range total).filterMap (fun i =>
    let start := i * ROWS_PER_CHUNK
    let stop := min ((i + 1) * ROWS_PER_CHUNK) df.length
    let chunk := (df.drop start).take (stop - start)
    if chunk.isEmpty then none else some (mkChunkName ts i total, chunk))

/-! ## Driver loop (`main`) -/

/-- What the environment does at one iteration of the driver loop: an
operator interrupt (`KeyboardInterrupt`) arriving before the request, or a
fetch outcome `o` together with a flag `iw` telling whether a
`KeyboardInterrupt` arrives during the inter-page `time.sleep` wait. -/
inductive Event
  | intr
  | go (o : FetchOut) (iw : Bool)
  deriving DecidableEq

/-- One run of `main`'s `while` loop.  `fuel` enforces the loop condition
`page_number <= MAX_PAGES` (at the top call `fuel = MAX_PAGES` and
`page = 1`, so `fuel = MAX_PAGES + 1 - page` throughout).  Returns the
accumulated dataset `all_data` and the number of fetches issued.  Mirrors
the body: fetch; on `df_page is None or df_page.empty` break; otherwise
concatenate; if more pages are expected, sleep (where an interrupt may
strike); `page_number += 1`; break once `len(all_data) >= total_expected`;
loop while `has_more_pages`. -/
def main_loop_aux (env : Nat → Event) (tsOf : Nat → String) :
    Nat → Nat → List Rec → List Rec × Nat
  | 0, _, acc => (acc, 0)
  | fuel + 1, page, acc =>
    match env page with
    | Event.intr => (acc, 0)
    | Event.go o iw =>
      match fetch_data_page o (tsOf page) page with
      | (none, _) => (acc, 1)
      | (some df, more) =>
        let acc2 := acc ++ df
        if more && iw then (acc2, 1)
        else if TOTAL_EXPECTED ≤ acc2.length then (acc2, 1)
        else if more then
          let r := main_loop_aux env tsOf fuel (page + 1) acc2
          (r.1, r.2 + 1)
        else (acc2, 1)

/-- The driver loop started as in `main`: `page_number = 1`,
`all_data` empty, `has_more_pages = True`. -/
def main_loop (env : Nat → Event) (tsOf : Nat → String) : List Rec × Nat :=
  main_loop_aux env tsOf MAX_PAGES 1 []

/-- `main` after the loop: if `all_data` is nonempty it is handed to
`save_data_csv_chunked`.  Returns (dataset, fetches, saved files). -/
def main_run (env : Nat → Event) (tsOf : Nat → String) (ts : String) :
    List Rec × Nat × List (String × List Rec) :=
  let d := main_loop env tsOf
  (d.1, d.2, if d.1.isEmpty then [] else save_data_csv_chunked ts d.1)

/-- Environment of an upstream holding exactly `T` records served in pages
of `PAGE_SIZE`: page `p` returns `min PAGE_SIZE (T - (p-1)*PAGE_SIZE)`
records, with no timeouts, errors or interrupts. -/
def baseRec : Rec := [("civi_snapshot_date", Val.s "2025-01-01")]

/-- Upstream oracle holding `T` records drawn from an arbitrary record
source `src` (the record at 0-based global index `i` is `src i`): page `p`
serves the records with indices `[(p-1)*PAGE_SIZE, min (p*PAGE_SIZE) T)`,
with no timeouts, errors or interrupts — the upstream of a clean
paginated run.  `skip = (p-1)*PAGE_SIZE` matches the cursor arithmetic of
`main`. -/
def envSrc (src : Nat → Rec) (T : Nat) (p : Nat) : Event :=
  Event.go
    (FetchOut.ok (Body.msgList
      ((List.range' ((p - 1) * PAGE_SIZE)
        (min PAGE_SIZE (T - (p - 1) * PAGE_SIZE))).map src)))
    false

/-- The stamped rows that page `j + 1` (0-based page offset `j`) of the
`T`-record upstream `src` contributes to the dataset. -/
def pageChunkSrc (src : Nat → Rec) (tsOf : Nat → String) (T j : Nat) :
    List Rec :=
  ((List.range' (j * PAGE_SIZE) (min PAGE_SIZE (T - j * PAGE_SIZE))).map
      src).map (stamp (tsOf (j + 1)) (j + 1))

/-- All `T` upstream records in original order, each stamped with the
metadata of the page that fetches it: the dataset a complete run against
`envSrc src T` must end with. -/
def srcDataset (src : Nat → Rec) (tsOf : Nat → String) (T : Nat) :
    List Rec :=
  ((List.range (T / PAGE_SIZE + 1)).map (pageChunkSrc src tsOf T)).flatten

/-- Upstream oracle with `T` identical records (see `baseRec`). -/
def envTotal (T : Nat) : Nat → Event :=
  envSrc (fun _ => baseRec) T

/-- A record source with distinguishable records, for concrete runs. -/
def srcId : Nat → Rec := fun i => [("id", Val.n i)]

/-- A fixed clock oracle for concrete runs. -/
def tsOf0 : Nat → String := fun _ => "t"

/-- Environment where every request times out. -/
def envAllTimeout : Nat → Event := fun _ => Event.go FetchOut.timeout false

/-- Environment where every iteration is interrupted by the operator. -/
def envIntr : Nat → Event := fun _ => Event.intr

/-- Environment serving a single one-record page and transport errors
afterwards. -/
def envOnePage : Nat → Event := fun p =>
  if p = 1 then Event.go (FetchOut.ok (Body.msgList [baseRec])) false
  else Event.go FetchOut.error false

/-- Environment whose first page alone already holds `TOTAL_EXPECTED`
records (and signals more data available). -/
def envBig : Nat → Event := fun _ =>
  Event.go
    (FetchOut.ok (Body.msgList (List.replicate TOTAL_EXPECTED baseRec)))
    false

end ApiCollector

namespace Normalizer

/-!
Modelled from the spec: the Encoding Normalizer of §4.4 is not present in
`src/` (only this repository's driver variant is); it is modelled here from
the spec's words.  Text is a list of Unicode code points.  Detection uses
the diagnostic two-character sequences of UTF-8-as-Latin-1 mojibake (an
`Ã`/`Â` first character, i.e. 0xC2/0xC3, followed by a character in the
continuation range 0x80–0xBF).  Repair, in the spec's priority order:
(1) re-encode the string with the suspected wrong decoding (Latin-1, so
code point = byte) and decode again as UTF-8; if this fails, (2) apply a
fixed table of known mis-decoded two-character sequences.  Characters not
matched by the tables pass through unchanged.
-/

/-- Modelled from the spec: a character of the UTF-8 continuation-byte
range, the second half of a diagnostic mojibake sequence. -/
def contB (c : Nat) : Bool := 0x80 ≤ c && c ≤ 0xBF

/-- Modelled from the spec: a diagnostic mojibake pair — `Ã` (0xC3) or `Â`
(0xC2) followed by a continuation-range character. -/
def isDiagPair (a b : Nat) : Bool := (a == 0xC2 || a == 0xC3) && contB b

/-- Modelled from the spec: does the text contain a diagnostic sequence? -/
def hasDiag : List Nat → Bool
  | a :: b :: rest => isDiagPair a b || hasDiag (b :: rest)
  | _ => false

/-- Modelled from the spec: the fixed table of known mis-decoded
two-character sequences and their correct single-character equivalents
(Spanish-language mojibake: `Ã¡`→`á`, `Ã©`→`é`, ..., `Ã‘`→`Ñ`). -/
def FIX_TABLE : List (Nat × Nat × Nat) :=
  [(0xC3, 0xA1, 0xE1), (0xC3, 0xA9, 0xE9), (0xC3, 0xAD, 0xED),
   (0xC3, 0xB3, 0xF3), (0xC3, 0xBA, 0xFA), (0xC3, 0xB1, 0xF1),
   (0xC3, 0x91, 0xD1), (0xC3, 0x81, 0xC1), (0xC3, 0x89, 0xC9),
   (0xC3, 0x8D, 0xCD), (0xC3, 0x93, 0xD3), (0xC3, 0x9A, 0xDA)]

/-- Correction for one two-character sequence, if the table knows it. -/
def lookupFix (a b : Nat) : Option Nat :=
  (FIX_TABLE.find? (fun t => t.1 == a && t.2.1 == b)).map (fun t => t.2.2)

/-- Modelled from the spec: one left-to-right pass replacing known
mis-decoded two-character sequences; characters not matched pass through
unchanged. -/
def applyTable : List Nat → List Nat
  | [] => []
  | [a] => [a]
  | a :: b :: rest =>
    match lookupFix a b with
    | some g => g :: applyTable rest
    | none => a :: applyTable (b :: rest)

/-- Strict UTF-8 decoding of a byte list into code points (`None` on any
ill-formed sequence: bad lead, truncation, bad continuation, overlong
form, surrogate). -/
def utf8Decode : List Nat → Option (List Nat)
  | [] => some []
  | b :: rest =>
    if b < 0x80 then (utf8Decode rest).map (fun l => b :: l)
    else if 0xC2 ≤ b && b ≤ 0xDF then
      match rest with
      | [] => none
      | c1 :: r =>
        if contB c1 then
          (utf8Decode r).map (fun l => ((b - 0xC0) * 64 + (c1 - 0x80)) :: l)
        else none
    else if 0xE0 ≤ b && b ≤ 0xEF then
      match rest with
      | c1 :: c2 :: r =>
        if contB c1 && contB c2 && (b != 0xE0 || 0xA0 ≤ c1) &&
            (b != 0xED || c1 ≤ 0x9F) then
          (utf8Decode r).map (fun l =>
            ((b - 0xE0) * 4096 + (c1 - 0x80) * 64 + (c2 - 0x80)) :: l)
        else none
      | _ => none
    else if 0xF0 ≤ b && b ≤ 0xF4 then
      match rest with
      | c1 :: c2 :: c3 :: r =>
        if contB c1 && contB c2 && contB c3 && (b != 0xF0 || 0x90 ≤ c1) &&
            (b != 0xF4 || c1 ≤ 0x8F) then
          (utf8Decode r).map (fun l =>
            ((b - 0xF0) * 262144 + (c1 - 0x80) * 4096 + (c2 - 0x80) * 64 +
              (c3 - 0x80)) :: l)
        else none
      | _ => none
    else none

/-- Modelled from the spec: the reversible round-trip — re-encode with the
suspected wrong decoding (Latin-1: code point = byte, possible only when
every code point fits a byte) and decode again as UTF-8. -/
def roundtrip (s : List Nat) : Option (List Nat) :=
  if s.all (fun c => c ≤ 0xFF) then utf8Decode s else none

/-- Modelled from the spec: repair one text field.  Without a diagnostic
sequence the text passes through; otherwise try the round-trip first and
fall back to the fix table. -/
def fixText (s : List Nat) : List Nat :=
  if hasDiag s then
    match roundtrip s with
    | some t => t
    | none => applyTable s
  else s

/-- A field value of a record as the normalizer sees it: text (code
points) or a non-text scalar, which must never be altered. -/
inductive V8
  | txt (s : List Nat)
  | num (x : Int)
  | boolean (b : Bool)
  | null
  deriving DecidableEq

/-- One record of a page under normalization. -/
abbrev Rec8 := List (String × V8)

/-- A page: an ordered sequence of records. -/
abbrev Page8 := List Rec8

/-- Normalization of one field value: only text is touched. -/
def fixVal : V8 → V8
  | V8.txt s => V8.txt (fixText s)
  | v => v

/-- Modelled from the spec: `normalize(Page) → Page`, column by column,
operating only on text-typed fields. -/
def normalize (p : Page8) : Page8 :=
  p.map (fun r => r.map (fun kv => (kv.1, fixVal kv.2)))

/-- Does a value carry a diagnostic sequence? -/
def diagV : V8 → Bool
  | V8.txt s => hasDiag s
  | _ => false

/-- Does a record carry a diagnostic sequence in some field? -/
def diagRec (r : Rec8) : Bool := r.any (fun kv => diagV kv.2)

/-- Does a page carry a diagnostic sequence anywhere? -/
def hasDiagPage (p : Page8) : Bool := p.any diagRec

/-- Text free of fix-table occurrences: no adjacent pair of characters is
a key of `FIX_TABLE`. -/
def noFix : List Nat → Bool
  | a :: b :: rest => (lookupFix a b).isNone && noFix (b :: rest)
  | _ => true

end Normalizer

namespace ApiCollector

lemma rows_pos : 0 < ROWS_PER_CHUNK := by norm_num [ROWS_PER_CHUNK]

/-- The slice `df.iloc[start:stop]` of chunk `i` equals a plain
`take ROWS_PER_CHUNK` of the dropped list (the `take` clamps at the end of
the dataset anyway). -/
lemma chunk_take_eq (df : List Rec) (i : Nat) :
    (df.drop (i * ROWS_PER_CHUNK)).take
        (min ((i + 1) * ROWS_PER_CHUNK) df.length - i * ROWS_PER_CHUNK) =
      (df.drop (i * ROWS_PER_CHUNK)).take ROWS_PER_CHUNK := by
  rw [List.take_eq_take]
  simp only [List.length_drop, ROWS_PER_CHUNK]
  omega

/-- A chunk is empty exactly when its start index is past the dataset. -/
lemma chunk_isEmpty (df : List Rec) (i : Nat) :
    ((df.drop (i * ROWS_PER_CHUNK)).take ROWS_PER_CHUNK).isEmpty =
      decide (df.length ≤ i * ROWS_PER_CHUNK) := by
  by_cases h : df.length ≤ i * ROWS_PER_CHUNK
  · have h2 : df.drop (i * ROWS_PER_CHUNK) = [] := List.drop_eq_nil_of_le h
    simp [h2, h]
  · have h2 : (df.drop (i * ROWS_PER_CHUNK)).take ROWS_PER_CHUNK ≠ [] := by
      intro hc
      have h3 := congrArg List.length hc
      simp only [List.length_take, List.length_drop, List.length_nil,
        ROWS_PER_CHUNK] at h3
      simp only [ROWS_PER_CHUNK] at h
      omega
    simp [h, h2]

/-- Ceiling division by the chunk bound, in terms of `/` and `%`. -/
lemma ceil_chunks (N : Nat) :
    (N + ROWS_PER_CHUNK - 1) / ROWS_PER_CHUNK =
      N / ROWS_PER_CHUNK + (if N % ROWS_PER_CHUNK = 0 then 0 else 1) := by
  simp only [ROWS_PER_CHUNK]
  split <;> omega

/-- A `filterMap` over `range n` whose function succeeds everywhere below
`n` is a `map`. -/
lemma filterMap_range_map {β : Type} (n : Nat) (f : Nat → Option β)
    (g : Nat → β) (h : ∀ i < n, f i = some (g i)) :
    (List.range n).filterMap f = (List.range n).map g := by
  induction n with
  | zero => simp
  | succ m ih =>
    rw [List.range_succ, List.filterMap_append, List.map_append,
      ih (fun i hi => h i (by omega))]
    simp [h m (by omega)]

/-- Structure of the chunked writer: exactly
`ceil (len df / ROWS_PER_CHUNK)` files, the `i`-th holding the `i`-th
`ROWS_PER_CHUNK`-sized slice of `df`, named with the `partN_ofM` suffix
where `M = len df // ROWS_PER_CHUNK + 1` is the (possibly one larger)
computed chunk count. -/
lemma save_struct (ts : String) (df : List Rec) :
    save_data_csv_chunked ts df =
      (List.range ((df.length + ROWS_PER_CHUNK - 1) / ROWS_PER_CHUNK)).map
        (fun i => (mkChunkName ts i (df.length / ROWS_PER_CHUNK + 1),
          (df.drop (i * ROWS_PER_CHUNK)).take ROWS_PER_CHUNK)) := by
  unfold save_data_csv_chunked
  simp only [chunk_take_eq, chunk_isEmpty]
  rcases Nat.eq_zero_or_pos df.length with h0 | hpos
  · have hdf : df = [] := List.eq_nil_of_length_eq_zero h0
    subst hdf
    simp [ROWS_PER_CHUNK]
  · by_cases hr : df.length % ROWS_PER_CHUNK = 0
    · rw [ceil_chunks, if_pos hr, Nat.add_zero, List.range_succ,
        List.filterMap_append]
      rw [filterMap_range_map _ _
        (fun i => (mkChunkName ts i (df.length / ROWS_PER_CHUNK + 1),
          (df.drop (i * ROWS_PER_CHUNK)).take ROWS_PER_CHUNK))
        ?_]
      · have hq : df.length ≤ df.length / ROWS_PER_CHUNK * ROWS_PER_CHUNK := by
          simp only [ROWS_PER_CHUNK] at hr ⊢
          omega
        simp [hq]
      · intro i hi
        have hlt : ¬ df.length ≤ i * ROWS_PER_CHUNK := by
          simp only [ROWS_PER_CHUNK] at hr hi ⊢
          omega
        simp [hlt]
    · rw [ceil_chunks, if_neg hr]
      apply filterMap_range_map
      intro i hi
      have hlt : ¬ df.length ≤ i * ROWS_PER_CHUNK := by
        simp only [ROWS_PER_CHUNK] at hr hi ⊢
        omega
      simp [hlt]

/-- Concatenating the `c`-sized slices of a list gives the list back, as
soon as the slice count covers its length. -/
lemma flatten_chunks (c : Nat) :
    ∀ (M : Nat) (l : List Rec), l.length ≤ M * c →
      ((List.range M).map (fun i => (l.drop (i * c)).take c)).flatten = l := by
  intro M
  induction M with
  | zero =>
    intro l h
    have : l = [] := List.eq_nil_of_length_eq_zero (by omega)
    simp [this]
  | succ m ih =>
    intro l h
    rw [List.range_succ_eq_map]
    simp only [List.map_cons, List.map_map, List.flatten_cons, Nat.zero_mul,
      List.drop_zero]
    have h1 : ((List.range m).map
        ((fun i => (l.drop (i * c)).take c) ∘ (· + 1))).flatten = l.drop c := by
      have h2 : ((fun i => (l.drop (i * c)).take c) ∘ (· + 1)) =
          (fun i => (((l.drop c).drop (i * c)).take c)) := by
        funext i
        simp only [Function.comp_apply]
        rw [List.drop_drop]
        ring_nf
      rw [h2]
      refine ih (l.drop c) ?_
      have h3 : (m + 1) * c = m * c + c := by ring
      simp only [List.length_drop]
      omega
    rw [h1, List.take_append_drop]

/-- The chunk bound covers the dataset length. -/
lemma length_le_ceil_mul (N : Nat) :
    N ≤ ((N + ROWS_PER_CHUNK - 1) / ROWS_PER_CHUNK) * ROWS_PER_CHUNK := by
  simp only [ROWS_PER_CHUNK]
  omega

/-- Rows of the written files, in order, concatenate back to the dataset:
nothing is dropped, duplicated or reordered by the chunked writer. -/
lemma save_flatten (ts : String) (df : List Rec) :
    ((save_data_csv_chunked ts df).map Prod.snd).flatten = df := by
  rw [save_struct, List.map_map]
  exact flatten_chunks ROWS_PER_CHUNK _ df (length_le_ceil_mul df.length)

/-- C1: for every dataset of size `N` and chunk bound `C = 400000` rows,
`save_data_csv_chunked` produces exactly `ceil (N / C)` output files whose
row counts sum to `N`, each file holding at most `C` rows, the `j`-th file
holding the contiguous slice `[j*C, min ((j+1)*C) N)` of the dataset in
original order, and zero files when `N = 0`. -/
theorem C1_chunked_writer (ts : String) (df : List Rec) :
    (save_data_csv_chunked ts df).length =
        (df.length + ROWS_PER_CHUNK - 1) / ROWS_PER_CHUNK ∧
      ((save_data_csv_chunked ts df).map (fun f => f.2.length)).sum =
        df.length ∧
      (∀ f ∈ save_data_csv_chunked ts df, f.2.length ≤ ROWS_PER_CHUNK) ∧
      (∀ j < (save_data_csv_chunked ts df).length,
        (save_data_csv_chunked ts df)[j]? =
          some (mkChunkName ts j (df.length / ROWS_PER_CHUNK + 1),
            (df.take (min ((j + 1) * ROWS_PER_CHUNK) df.length)).drop
              (j * ROWS_PER_CHUNK))) ∧
      (df.length = 0 → save_data_csv_chunked ts df = []) := by
  refine ⟨?_, ?_, ?_, ?_, ?_⟩
  · rw [save_struct]
    simp
  · have h := congrArg List.length (save_flatten ts df)
    rw [List.length_flatten, List.map_map] at h
    exact h
  · intro f hf
    rw [save_struct] at hf
    simp only [List.mem_map, List.mem_range] at hf
    obtain ⟨i, hi, rfl⟩ := hf
    simp only [List.length_take, List.length_drop]
    exact min_le_left _ _
  · intro j hj
    rw [save_struct] at hj ⊢
    rw [List.getElem?_map, List.getElem?_range (by simpa using hj)]
    rw [List.drop_take, chunk_take_eq]
    rfl
  · intro h0
    rw [save_struct]
    have h1 : (df.length + ROWS_PER_CHUNK - 1) / ROWS_PER_CHUNK = 0 := by
      simp only [h0, ROWS_PER_CHUNK]
    rw [h1]
    simp

/-- Witness for C1 at the concrete one-record dataset `[baseRec]` (one
chunk) and at the empty dataset (zero files). -/
theorem C1_chunked_writer_witness :
    (("Historico_T_part1_of1.csv", [baseRec]) ∈
        save_data_csv_chunked "T" [baseRec] ∧
      (("Historico_T_part1_of1.csv", [baseRec]) :
          String × List Rec).2.length ≤ ROWS_PER_CHUNK) ∧
      (0 < (save_data_csv_chunked "T" [baseRec]).length ∧
        (save_data_csv_chunked "T" [baseRec])[0]? =
          some (mkChunkName "T" 0
              (([baseRec] : List Rec).length / ROWS_PER_CHUNK + 1),
            (([baseRec] : List Rec).take
                (min ((0 + 1) * ROWS_PER_CHUNK)
                  ([baseRec] : List Rec).length)).drop
              (0 * ROWS_PER_CHUNK))) ∧
      (([] : List Rec).length = 0 ∧
        save_data_csv_chunked "T" ([] : List Rec) = []) := by
  refine ⟨⟨by decide, ?_⟩, ⟨by decide, ?_⟩, rfl, ?_⟩
  · exact (C1_chunked_writer "T" [baseRec]).2.2.1 _ (by decide)
  · exact (C1_chunked_writer "T" [baseRec]).2.2.2.1 0 (by decide)
  · exact (C1_chunked_writer "T" []).2.2.2.2 rfl

/-- The filename of the single chunk of a small dataset. -/
lemma mkChunkName_0_1 (ts : String) :
    mkChunkName ts 0 1 = "Historico_" ++ ts ++ "_part1_of1.csv" := by
  unfold mkChunkName
  simp only [String.append_assoc]
  congr 2

/-- C6 counterexample: a one-record dataset yields exactly one chunk, yet
its filename is `Historico_TS_part1_of1.csv` — the `partN_ofM` suffix is
present, not omitted: the name differs from the suffix-free
`Historico_TS.csv` the claim describes. -/
theorem C6_counterexample :
    (save_data_csv_chunked "TS" [baseRec]).map Prod.fst =
        ["Historico_TS_part1_of1.csv"] ∧
      "Historico_TS_part1_of1.csv" ≠ "Historico_TS.csv" := by
  refine ⟨by decide, by decide⟩

/-- C6 amended: the output filename always consists of the fixed textual
prefix `Historico_`, the capture timestamp, and a `partN_ofM` suffix; the
suffix is present even when exactly one chunk results (for `0 < N < C` the
single file is named `Historico_{ts}_part1_of1.csv`; note also that for
`N = C` exactly, the single written file is named `part1_of2` because the
computed chunk count `N // C + 1` counts a trailing empty chunk that is
then skipped). -/
theorem C6_chunk_filename (ts : String) (df : List Rec)
    (h1 : 0 < df.length) (h2 : df.length < ROWS_PER_CHUNK) :
    (save_data_csv_chunked ts df).map Prod.fst =
      ["Historico_" ++ ts ++ "_part1_of1.csv"] := by
  rw [save_struct]
  have hM : (df.length + ROWS_PER_CHUNK - 1) / ROWS_PER_CHUNK = 1 := by
    simp only [ROWS_PER_CHUNK] at h2 ⊢
    omega
  have hq : df.length / ROWS_PER_CHUNK + 1 = 1 := by
    simp only [ROWS_PER_CHUNK] at h2 ⊢
    omega
  rw [hM, hq]
  simp [List.range_succ, mkChunkName_0_1]

/-- Witness for C6 (amended) at the one-record dataset. -/
theorem C6_chunk_filename_witness :
    0 < ([baseRec] : List Rec).length ∧
      ([baseRec] : List Rec).length < ROWS_PER_CHUNK ∧
      (save_data_csv_chunked "T" [baseRec]).map Prod.fst =
        ["Historico_" ++ "T" ++ "_part1_of1.csv"] :=
  ⟨by decide, by decide, C6_chunk_filename "T" [baseRec] (by decide) (by decide)⟩

/-- C7: `build_url` is a pure function that percent-encodes each query
parameter value: for endpoint `Endpoint`, ordering clause `field desc`,
page size 15000 and offset 30000 the produced URL ends with (hence
contains) the substring `orderby=field%20desc&take=15000&skip=30000`, the
embedded space encoded as `%20` and no parameter dropped. -/
theorem C7_url_builder (base : String) :
    build_url base "Endpoint"
        [("orderby", "field desc"), ("take", "15000"), ("skip", "30000")] =
        base ++ "Endpoint?orderby=field%20desc&take=15000&skip=30000" ∧
      ∃ pre,
        build_url base "Endpoint"
            [("orderby", "field desc"), ("take", "15000"),
              ("skip", "30000")] =
          pre ++ "orderby=field%20desc&take=15000&skip=30000" := by
  constructor
  · unfold build_url
    simp only [String.append_assoc]
    congr 1
  · refine ⟨base ++ "Endpoint?", ?_⟩
    unfold build_url
    simp only [String.append_assoc]
    congr 1

/-- An operator interrupt at the top of an iteration exits the loop with
the accumulated dataset unchanged and no further fetch. -/
lemma loop_exit_intr (env : Nat → Event) (tsOf : Nat → String)
    (f p : Nat) (acc : List Rec) (h : env p = Event.intr) :
    main_loop_aux env tsOf (f + 1) p acc = (acc, 0) := by
  simp [main_loop_aux, h]

/-- Any fetch yielding no page data (`df_page is None`) breaks the loop
after that one fetch, keeping the accumulated dataset. -/
lemma loop_exit_none (env : Nat → Event) (tsOf : Nat → String)
    (f p : Nat) (acc : List Rec) (o : FetchOut) (iw : Bool)
    (h : env p = Event.go o iw)
    (h2 : (fetch_data_page o (tsOf p) p).1 = none) :
    main_loop_aux env tsOf (f + 1) p acc = (acc, 1) := by
  rcases hf : fetch_data_page o (tsOf p) p with ⟨d, more⟩
  rw [hf] at h2
  simp only at h2
  subst h2
  simp [main_loop_aux, h, hf]

/-- A timeout at page `p` exits the loop after that fetch. -/
lemma loop_exit_timeout (env : Nat → Event) (tsOf : Nat → String)
    (f p : Nat) (acc : List Rec) (iw : Bool)
    (h : env p = Event.go FetchOut.timeout iw) :
    main_loop_aux env tsOf (f + 1) p acc = (acc, 1) :=
  loop_exit_none env tsOf f p acc FetchOut.timeout iw h rfl

/-- A transport error at page `p` exits the loop after that fetch. -/
lemma loop_exit_error (env : Nat → Event) (tsOf : Nat → String)
    (f p : Nat) (acc : List Rec) (iw : Bool)
    (h : env p = Event.go FetchOut.error iw) :
    main_loop_aux env tsOf (f + 1) p acc = (acc, 1) :=
  loop_exit_none env tsOf f p acc FetchOut.error iw h rfl

/-- Whatever dataset the loop ends with is exactly what the written files
contain, in order (`main` hands `all_data` to the chunked writer; an empty
dataset produces no file). -/
lemma main_run_flatten (env : Nat → Event) (tsOf : Nat → String)
    (ts : String) :
    (((main_run env tsOf ts).2.2).map Prod.snd).flatten =
      (main_loop env tsOf).1 := by
  unfold main_run
  by_cases h : (main_loop env tsOf).1 = []
  · simp [h]
  · have h2 : (main_loop env tsOf).1.isEmpty = false := by
      simp [List.isEmpty_iff, h]
    simp only [h2, Bool.false_eq_true, if_false]
    exact save_flatten ts (main_loop env tsOf).1

/-- C4 counterexample: a syntactically valid response with an empty record
array and a failed (non-timeout) request produce the same result marker
`(None, False)` at the fetcher's interface — the claimed distinctness is
false. -/
theorem C4_counterexample :
    fetch_data_page (FetchOut.ok (Body.msgList [])) "t" 1 = (none, false) ∧
      fetch_data_page FetchOut.error "t" 1 = (none, false) :=
  ⟨rfl, rfl⟩

/-- C4 amended: an empty or missing record array yields the out-of-band
marker `(None, False)`, but this marker is shared with non-timeout
transport failures, so the driver cannot tell `zero records returned`
apart from a failed request; only a timeout is distinguished, via
`(None, True)`. -/
theorem C4_empty_page_markers (ts : String) (p : Nat) :
    extract_message_data (Body.msgList []) = some [] ∧
      extract_message_data Body.msgNonList = none ∧
      extract_message_data Body.noMessage = none ∧
      fetch_data_page (FetchOut.ok (Body.msgList [])) ts p = (none, false) ∧
      fetch_data_page (FetchOut.ok Body.msgNonList) ts p = (none, false) ∧
      fetch_data_page (FetchOut.ok Body.noMessage) ts p = (none, false) ∧
      fetch_data_page FetchOut.error ts p = (none, false) ∧
      fetch_data_page FetchOut.timeout ts p = (none, true) :=
  ⟨rfl, rfl, rfl, rfl, rfl, rfl, rfl, rfl⟩

/-- C3 counterexample: with every request timing out, the run terminates
after a single fetch ( `main_loop` returns one fetch and an empty
dataset): the driver does not continue to request the next page after a
timeout, contradicting the claimed retry-by-continuation. -/
theorem C3_counterexample :
    main_loop envAllTimeout tsOf0 = ([], 1) ∧
      fetch_data_page FetchOut.timeout "t" 1 = (none, true) :=
  ⟨rfl, rfl⟩

/-- C3 amended: on a timeout `fetch_data_page` does return the
continuation-flavoured marker `(None, True)`, but the driver loop halts on
every page that yields no data, so a single timeout terminates the run
(the records accumulated so far are kept for persistence). -/
theorem C3_timeout_halts :
    (∀ ts p, fetch_data_page FetchOut.timeout ts p = (none, true)) ∧
      ∀ env tsOf f p acc iw, env p = Event.go FetchOut.timeout iw →
        main_loop_aux env tsOf (f + 1) p acc = (acc, 1) :=
  ⟨fun _ _ => rfl,
   fun env tsOf f p acc iw h => loop_exit_timeout env tsOf f p acc iw h⟩

/-- Witness for C3 (amended) at the all-timeouts environment. -/
theorem C3_timeout_halts_witness :
    envAllTimeout 1 = Event.go FetchOut.timeout false ∧
      main_loop_aux envAllTimeout tsOf0 (46 + 1) 1 [baseRec] =
        ([baseRec], 1) :=
  ⟨rfl, C3_timeout_halts.2 envAllTimeout tsOf0 46 1 [baseRec] false rfl⟩

/-- C5: on every loop exit other than normal completion — an operator
interrupt before a fetch, a transport error, or a timeout on some page
after earlier pages succeeded — the dataset accumulated so far (and only
it) survives to the persistence step, and the rows of the written files
concatenate back exactly to that dataset: nothing is discarded, nothing is
invented. -/
theorem C5_flush_on_exit :
    (∀ env tsOf ts,
        (((main_run env tsOf ts).2.2).map Prod.snd).flatten =
          (main_loop env tsOf).1) ∧
      ∀ env tsOf f p acc,
        (env p = Event.intr →
          main_loop_aux env tsOf (f + 1) p acc = (acc, 0)) ∧
        (∀ iw, env p = Event.go FetchOut.error iw →
          main_loop_aux env tsOf (f + 1) p acc = (acc, 1)) ∧
        (∀ iw, env p = Event.go FetchOut.timeout iw →
          main_loop_aux env tsOf (f + 1) p acc = (acc, 1)) :=
  ⟨fun env tsOf ts => main_run_flatten env tsOf ts,
   fun env tsOf f p acc =>
    ⟨fun h => loop_exit_intr env tsOf f p acc h,
     fun iw h => loop_exit_error env tsOf f p acc iw h,
     fun iw h => loop_exit_timeout env tsOf f p acc iw h⟩⟩

/-- Witness for C5 at concrete interrupted, erroring and one-page runs. -/
theorem C5_flush_on_exit_witness :
    envIntr 1 = Event.intr ∧
      main_loop_aux envIntr tsOf0 (46 + 1) 1 [baseRec] = ([baseRec], 0) ∧
      envAllTimeout 2 = Event.go FetchOut.timeout false ∧
      main_loop_aux envAllTimeout tsOf0 (45 + 1) 2 [baseRec] =
        ([baseRec], 1) ∧
      (((main_run envOnePage tsOf0 "T").2.2).map Prod.snd).flatten =
        (main_loop envOnePage tsOf0).1 :=
  ⟨rfl, (C5_flush_on_exit.2 envIntr tsOf0 46 1 [baseRec]).1 rfl, rfl,
   (C5_flush_on_exit.2 envAllTimeout tsOf0 45 2 [baseRec]).2.2 false rfl,
   C5_flush_on_exit.1 envOnePage tsOf0 "T"⟩

/-- A successful fetch only ever returns rows stamped with the metadata
columns of its own page. -/
lemma fetch_some_shape (o : FetchOut) (ts : String) (p : Nat)
    (df : List Rec) (more : Bool)
    (h : fetch_data_page o ts p = (some df, more)) :
    ∃ recs : List Rec, df = recs.map (stamp ts p) := by
  cases o with
  | timeout => simp [fetch_data_page] at h
  | error => simp [fetch_data_page] at h
  | ok body =>
    cases body with
    | msgList recs =>
      cases recs with
      | nil => simp [fetch_data_page, extract_message_data] at h
      | cons r rs =>
        refine ⟨r :: rs, ?_⟩
        simp only [fetch_data_page, extract_message_data,
          Prod.mk.injEq, Option.some.injEq] at h
        exact h.1.symm
    | msgNonList => simp [fetch_data_page, extract_message_data] at h
    | noMessage => simp [fetch_data_page, extract_message_data] at h

/-- Every row the loop ever accumulates is either already in `acc` or the
stamped image of an upstream record of some page fetched in the window
`[p, p + fuel)`. -/
lemma mem_loop_aux (env : Nat → Event) (tsOf : Nat → String) :
    ∀ f p acc x, x ∈ (main_loop_aux env tsOf f p acc).1 →
      x ∈ acc ∨ ∃ r k, p ≤ k ∧ k < p + f ∧ x = stamp (tsOf k) k r := by
  intro f
  induction f with
  | zero =>
    intro p acc x hx
    exact Or.inl hx
  | succ m ih =>
    intro p acc x hx
    cases he : env p with
    | intr =>
      rw [loop_exit_intr env tsOf m p acc he] at hx
      exact Or.inl hx
    | go o iw =>
      rcases hf : fetch_data_page o (tsOf p) p with ⟨d, more⟩
      cases d with
      | none =>
        rw [loop_exit_none env tsOf m p acc o iw he (by rw [hf])] at hx
        exact Or.inl hx
      | some df =>
        obtain ⟨recs, rfl⟩ := fetch_some_shape o (tsOf p) p df more hf
        have hdf : ∀ y, y ∈ acc ++ recs.map (stamp (tsOf p) p) →
            y ∈ acc ∨
              ∃ r k, p ≤ k ∧ k < p + (m + 1) ∧ y = stamp (tsOf k) k r := by
          intro y hy
          rcases List.mem_append.mp hy with hy | hy
          · exact Or.inl hy
          · obtain ⟨r, hr, rfl⟩ := List.mem_map.mp hy
            exact Or.inr ⟨r, p, le_refl p, by omega, rfl⟩
        simp only [main_loop_aux, he, hf] at hx
        split at hx
        · exact hdf x hx
        · split at hx
          · exact hdf x hx
          · split at hx
            · rcases ih (p + 1) (acc ++ recs.map (stamp (tsOf p) p)) x hx
                with h1 | ⟨r, k, hk1, hk2, hk3⟩
              · exact hdf x h1
              · exact Or.inr ⟨r, k, by omega, by omega, hk3⟩
            · exact hdf x hx

/-- C9: every record of every written output file carries the two extra
columns appended by `fetch_data_page` before accumulation —
`load_timestamp` (the fetch time of its page) and `page_number` (the
1-based page index, which stays within the page window of the run). -/
theorem C9_metadata_columns (env : Nat → Event) (tsOf : Nat → String)
    (ts : String) (fl : String × List Rec) (x : Rec)
    (h1 : fl ∈ (main_run env tsOf ts).2.2) (h2 : x ∈ fl.2) :
    ∃ r p, 1 ≤ p ∧ p ≤ MAX_PAGES ∧
      x = r ++ [("load_timestamp", Val.s (tsOf p)),
        ("page_number", Val.n p)] := by
  have hx : x ∈ (main_loop env tsOf).1 := by
    rw [← main_run_flatten env tsOf ts]
    exact List.mem_flatten.mpr ⟨fl.2, List.mem_map_of_mem Prod.snd h1, h2⟩
  rcases mem_loop_aux env tsOf MAX_PAGES 1 [] x hx
    with h | ⟨r, k, hk1, hk2, rfl⟩
  · simp at h
  · refine ⟨r, k, hk1, ?_, rfl⟩
    simp only [MAX_PAGES] at hk2 ⊢
    omega

/-- Witness for C9 at a concrete one-page run. -/
theorem C9_metadata_columns_witness :
    (mkChunkName "T" 0 1, [stamp "t" 1 baseRec]) ∈
        (main_run envOnePage tsOf0 "T").2.2 ∧
      stamp "t" 1 baseRec ∈
        ((mkChunkName "T" 0 1, [stamp "t" 1 baseRec]) :
          String × List Rec).2 ∧
      ∃ r p, 1 ≤ p ∧ p ≤ MAX_PAGES ∧
        stamp "t" 1 baseRec =
          r ++ [("load_timestamp", Val.s (tsOf0 p)),
            ("page_number", Val.n p)] :=
  ⟨by decide, by decide,
   C9_metadata_columns envOnePage tsOf0 "T"
     (mkChunkName "T" 0 1, [stamp "t" 1 baseRec]) (stamp "t" 1 baseRec)
     (by decide) (by decide)⟩

/-- The loop never issues more fetches than it has fuel. -/
lemma loop_count_le (env : Nat → Event) (tsOf : Nat → String) :
    ∀ f p acc, (main_loop_aux env tsOf f p acc).2 ≤ f := by
  intro f
  induction f with
  | zero =>
    intro p acc
    simp [main_loop_aux]
  | succ m ih =>
    intro p acc
    cases he : env p with
    | intr => simp [main_loop_aux, he]
    | go o iw =>
      rcases hf : fetch_data_page o (tsOf p) p with ⟨d, more⟩
      cases d with
      | none => simp [main_loop_aux, he, hf]
      | some df =>
        simp only [main_loop_aux, he, hf]
        split
        · omega
        · split
          · omega
          · split
            · have := ih (p + 1) (acc ++ df)
              omega
            · omega

/-- C10: the driver loop always terminates — it issues at most
`MAX_PAGES = 47` fetches regardless of the termination oracle — and it
exits as soon as the accumulated dataset reaches `TOTAL_EXPECTED = 700000`
records, after a single further bookkeeping-free step, even when the
just-fetched page signalled that more data is available. -/
theorem C10_loop_caps :
    (∀ env tsOf, (main_loop env tsOf).2 ≤ MAX_PAGES) ∧
      ∀ env tsOf f p acc recs iw,
        env p = Event.go (FetchOut.ok (Body.msgList recs)) iw →
        recs ≠ [] →
        TOTAL_EXPECTED ≤ acc.length + recs.length →
        main_loop_aux env tsOf (f + 1) p acc =
          (acc ++ recs.map (stamp (tsOf p) p), 1) := by
  constructor
  · intro env tsOf
    exact loop_count_le env tsOf MAX_PAGES 1 []
  · intro env tsOf f p acc recs iw he hne hlen
    rcases recs with _ | ⟨r, rs⟩
    · exact absurd rfl hne
    have hl : TOTAL_EXPECTED ≤
        (acc ++ (r :: rs).map (stamp (tsOf p) p)).length := by
      simp only [List.length_append, List.length_map]
      simpa using hlen
    simp only [main_loop_aux, he, fetch_data_page, extract_message_data]
    split
    · rfl
    · rfl

/-- Witness for C10 at an environment whose first page already carries
`TOTAL_EXPECTED` records and still signals more data. -/
theorem C10_loop_caps_witness :
    envBig 1 = Event.go
        (FetchOut.ok (Body.msgList (List.replicate TOTAL_EXPECTED baseRec)))
        false ∧
      List.replicate TOTAL_EXPECTED baseRec ≠ [] ∧
      TOTAL_EXPECTED ≤ ([] : List Rec).length +
        (List.replicate TOTAL_EXPECTED baseRec).length ∧
      main_loop_aux envBig tsOf0 (46 + 1) 1 [] =
        ([] ++ (List.replicate TOTAL_EXPECTED baseRec).map
          (stamp (tsOf0 1) 1), 1) ∧
      (main_loop envBig tsOf0).2 ≤ MAX_PAGES := by
  have hne : List.replicate TOTAL_EXPECTED baseRec ≠ [] := by
    refine List.length_pos.mp ?_
    rw [List.length_replicate]
    norm_num [TOTAL_EXPECTED]
  have hlen : TOTAL_EXPECTED ≤ ([] : List Rec).length +
      (List.replicate TOTAL_EXPECTED baseRec).length := by
    rw [List.length_replicate, List.length_nil]
    omega
  exact ⟨rfl, hne, hlen,
    C10_loop_caps.2 envBig tsOf0 46 1 [] _ false rfl hne hlen,
    C10_loop_caps.1 envBig tsOf0⟩

/-- A nonempty page with fewer than `PAGE_SIZE` records is the last one:
the loop accumulates it and exits after this single further fetch. -/
lemma loop_step_done (env : Nat → Event) (tsOf : Nat → String)
    (f p : Nat) (acc recs : List Rec) (iw : Bool)
    (he : env p = Event.go (FetchOut.ok (Body.msgList recs)) iw)
    (hne : recs ≠ []) (hmore : ¬ PAGE_SIZE ≤ recs.length) :
    main_loop_aux env tsOf (f + 1) p acc =
      (acc ++ recs.map (stamp (tsOf p) p), 1) := by
  rcases recs with _ | ⟨r, rs⟩
  · exact absurd rfl hne
  have hm : decide (PAGE_SIZE ≤ (r :: rs).length) = false :=
    decide_eq_false hmore
  simp only [main_loop_aux, he, fetch_data_page, extract_message_data, hm,
    Bool.false_and, if_neg Bool.false_ne_true, ite_self]

/-- A full page with no interrupt and the accumulation cap not yet hit
makes the loop continue with the next page. -/
lemma loop_step_more (env : Nat → Event) (tsOf : Nat → String)
    (f p : Nat) (acc recs : List Rec)
    (he : env p = Event.go (FetchOut.ok (Body.msgList recs)) false)
    (hne : recs ≠ []) (hmore : PAGE_SIZE ≤ recs.length)
    (hlen : (acc ++ recs.map (stamp (tsOf p) p)).length < TOTAL_EXPECTED) :
    main_loop_aux env tsOf (f + 1) p acc =
      ((main_loop_aux env tsOf f (p + 1)
          (acc ++ recs.map (stamp (tsOf p) p))).1,
        (main_loop_aux env tsOf f (p + 1)
          (acc ++ recs.map (stamp (tsOf p) p))).2 + 1) := by
  rcases recs with _ | ⟨r, rs⟩
  · exact absurd rfl hne
  have hm : decide (PAGE_SIZE ≤ (r :: rs).length) = true :=
    decide_eq_true hmore
  simp only [main_loop_aux, he, fetch_data_page, extract_message_data, hm,
    Bool.and_false, if_neg Bool.false_ne_true, if_neg (not_le.mpr hlen),
    if_pos trivial, if_pos rfl]

/-- Running the loop against the `T`-record upstream `envSrc src T` from
the state where all but the last `k + 1` pages have been fetched: exactly
`k + 1` further fetches happen and precisely the remaining upstream
records are appended, in order, each stamped with its page.  Requires the
page count to stay under the `MAX_PAGES` and `TOTAL_EXPECTED` caps. -/
lemma envSrc_run (src : Nat → Rec) (T : Nat) (tsOf : Nat → String)
    (hq46 : T / PAGE_SIZE ≤ 46) :
    ∀ k, k ≤ T / PAGE_SIZE → ∀ acc : List Rec,
      acc.length = (T / PAGE_SIZE - k) * PAGE_SIZE →
      main_loop_aux (envSrc src T) tsOf (47 - (T / PAGE_SIZE - k))
          (T / PAGE_SIZE - k + 1) acc =
        (acc ++ ((List.range (k + 1)).map
          (fun i => pageChunkSrc src tsOf T (T / PAGE_SIZE - k + i))).flatten,
         k + 1) ∧
      (main_loop_aux (envSrc src T) tsOf (47 - (T / PAGE_SIZE - k))
          (T / PAGE_SIZE - k + 1) acc).1.length =
        acc.length + (T - (T / PAGE_SIZE - k) * PAGE_SIZE) := by
  intro k
  induction k with
  | zero =>
    intro _ acc hacc
    have hdm := Nat.div_add_mod T PAGE_SIZE
    obtain ⟨f, hf⟩ : ∃ f, 47 - (T / PAGE_SIZE - 0) = f + 1 :=
      ⟨46 - T / PAGE_SIZE, by omega⟩
    rw [hf]
    simp only [Nat.sub_zero] at *
    have hm : min PAGE_SIZE (T - T / PAGE_SIZE * PAGE_SIZE) =
        T % PAGE_SIZE := by
      simp only [PAGE_SIZE] at *
      omega
    have he : envSrc src T (T / PAGE_SIZE + 1) =
        Event.go (FetchOut.ok (Body.msgList
          ((List.range' (T / PAGE_SIZE * PAGE_SIZE) (T % PAGE_SIZE)).map
            src))) false := by
      unfold envSrc
      rw [Nat.add_sub_cancel, hm]
    by_cases hr0 : T % PAGE_SIZE = 0
    · have he2 : envSrc src T (T / PAGE_SIZE + 1) =
          Event.go (FetchOut.ok (Body.msgList [])) false := by
        rw [he, hr0]
        rfl
      rw [loop_exit_none (envSrc src T) tsOf f (T / PAGE_SIZE + 1) acc _ _
        he2 rfl]
      have hz : min PAGE_SIZE (T - T / PAGE_SIZE * PAGE_SIZE) = 0 := by
        simp only [PAGE_SIZE] at *
        omega
      refine ⟨?_, ?_⟩
      · simp [List.range_succ, pageChunkSrc, hz]
      · show acc.length = acc.length + (T - T / PAGE_SIZE * PAGE_SIZE)
        simp only [PAGE_SIZE] at *
        omega
    · have hlenr : ((List.range' (T / PAGE_SIZE * PAGE_SIZE)
          (T % PAGE_SIZE)).map src).length = T % PAGE_SIZE := by
        rw [List.length_map, List.length_range']
      have hne : ((List.range' (T / PAGE_SIZE * PAGE_SIZE)
          (T % PAGE_SIZE)).map src) ≠ [] := by
        refine List.length_pos.mp ?_
        rw [hlenr]
        omega
      have hmore : ¬ PAGE_SIZE ≤ ((List.range' (T / PAGE_SIZE * PAGE_SIZE)
          (T % PAGE_SIZE)).map src).length := by
        rw [hlenr]
        simp only [PAGE_SIZE] at *
        omega
      rw [loop_step_done (envSrc src T) tsOf f (T / PAGE_SIZE + 1) acc _
        false he hne hmore]
      have hch : pageChunkSrc src tsOf T (T / PAGE_SIZE) =
          ((List.range' (T / PAGE_SIZE * PAGE_SIZE) (T % PAGE_SIZE)).map
            src).map (stamp (tsOf (T / PAGE_SIZE + 1))
              (T / PAGE_SIZE + 1)) := by
        unfold pageChunkSrc
        rw [hm]
      refine ⟨?_, ?_⟩
      · simp [List.range_succ, hch]
      · simp only [List.length_append, List.length_map, List.length_range']
        simp only [PAGE_SIZE] at *
        omega
  | succ k ih =>
    intro hk acc hacc
    have hdm := Nat.div_add_mod T PAGE_SIZE
    obtain ⟨f, hf⟩ : ∃ f, 47 - (T / PAGE_SIZE - (k + 1)) = f + 1 :=
      ⟨46 - (T / PAGE_SIZE - (k + 1)), by omega⟩
    rw [hf]
    have hm : min PAGE_SIZE (T - (T / PAGE_SIZE - (k + 1)) * PAGE_SIZE) =
        PAGE_SIZE := by
      simp only [PAGE_SIZE] at *
      omega
    have he : envSrc src T (T / PAGE_SIZE - (k + 1) + 1) =
        Event.go (FetchOut.ok (Body.msgList
          ((List.range' ((T / PAGE_SIZE - (k + 1)) * PAGE_SIZE)
            PAGE_SIZE).map src))) false := by
      unfold envSrc
      rw [Nat.add_sub_cancel, hm]
    have hlenr : ((List.range' ((T / PAGE_SIZE - (k + 1)) * PAGE_SIZE)
        PAGE_SIZE).map src).length = PAGE_SIZE := by
      rw [List.length_map, List.length_range']
    have hne : ((List.range' ((T / PAGE_SIZE - (k + 1)) * PAGE_SIZE)
        PAGE_SIZE).map src) ≠ [] := by
      refine List.length_pos.mp ?_
      rw [hlenr]
      norm_num [PAGE_SIZE]
    have hmore : PAGE_SIZE ≤ ((List.range' ((T / PAGE_SIZE - (k + 1)) *
        PAGE_SIZE) PAGE_SIZE).map src).length :=
      le_of_eq hlenr.symm
    have hlen2 : (acc ++ ((List.range' ((T / PAGE_SIZE - (k + 1)) *
        PAGE_SIZE) PAGE_SIZE).map src).map
          (stamp (tsOf (T / PAGE_SIZE - (k + 1) + 1))
            (T / PAGE_SIZE - (k + 1) + 1))).length < TOTAL_EXPECTED := by
      simp only [List.length_append, List.length_map, List.length_range']
      simp only [PAGE_SIZE, TOTAL_EXPECTED] at *
      omega
    rw [loop_step_more (envSrc src T) tsOf f (T / PAGE_SIZE - (k + 1) + 1)
      acc _ he hne hmore hlen2]
    have hacc2 : (acc ++ ((List.range' ((T / PAGE_SIZE - (k + 1)) *
        PAGE_SIZE) PAGE_SIZE).map src).map
          (stamp (tsOf (T / PAGE_SIZE - (k + 1) + 1))
            (T / PAGE_SIZE - (k + 1) + 1))).length =
        (T / PAGE_SIZE - k) * PAGE_SIZE := by
      simp only [List.length_append, List.length_map, List.length_range']
      simp only [PAGE_SIZE] at *
      omega
    have harg1 : f = 47 - (T / PAGE_SIZE - k) := by omega
    have harg2 : T / PAGE_SIZE - (k + 1) + 1 + 1 = T / PAGE_SIZE - k + 1 :=
      by omega
    rw [harg1, harg2]
    obtain ⟨ih1, ih2⟩ := ih (by omega) _ hacc2
    have hbig : ((List.range (k + 1 + 1)).map
        (fun i => pageChunkSrc src tsOf T
          (T / PAGE_SIZE - (k + 1) + i))).flatten =
        ((List.range' ((T / PAGE_SIZE - (k + 1)) * PAGE_SIZE)
            PAGE_SIZE).map src).map
          (stamp (tsOf (T / PAGE_SIZE - (k + 1) + 1))
            (T / PAGE_SIZE - (k + 1) + 1)) ++
        ((List.range (k + 1)).map
          (fun i => pageChunkSrc src tsOf T
            (T / PAGE_SIZE - k + i))).flatten := by
      rw [List.range_succ_eq_map]
      simp only [List.map_cons, List.map_map, List.flatten_cons,
        Nat.add_zero]
      congr 1
      · unfold pageChunkSrc
        rw [hm, List.map_map]
      · congr 1
        refine List.map_congr_left ?_
        intro i hi
        simp only [Function.comp_apply]
        congr 1
        simp only [List.mem_range] at hi
        omega
    refine ⟨?_, ?_⟩
    · rw [ih1, hbig, ← List.append_assoc]
    · rw [ih2, hacc2]
      simp only [PAGE_SIZE] at *
      omega

/-- C2 counterexample: an upstream of exactly `total = 15000 = S` records
(final page returning `r = 0 < S` records) makes the run issue 2 fetches,
not `ceil (total / S) = 1`: the empty final page costs one extra fetch. -/
theorem C2_counterexample :
    (main_loop (envTotal 15000) tsOf0).2 = 2 ∧
      (15000 + PAGE_SIZE - 1) / PAGE_SIZE = 1 := by
  constructor
  · have h := (envSrc_run (fun _ => baseRec) 15000 tsOf0
      (by norm_num [PAGE_SIZE]) 1 (by norm_num [PAGE_SIZE]) []
      (by simp [PAGE_SIZE])).1
    have h2 : (main_loop_aux (envSrc (fun _ => baseRec) 15000) tsOf0
        (47 - (15000 / PAGE_SIZE - 1)) (15000 / PAGE_SIZE - 1 + 1) []).2 =
        2 := by
      rw [h]
    exact h2
  · norm_num [PAGE_SIZE]

/-- C2 amended: the per-page oracle is exactly `continue iff the page's
record count is at least PAGE_SIZE`; and for every upstream of `T` records
(arbitrary record contents) with `T / S ≤ 46` — so that neither the
`MAX_PAGES` cap nor the 700000-record cap intervenes — the run fetches
exactly the `T` upstream records, in original order and stamped with their
pages, in exactly `T / S + 1` fetches, which equals `ceil (T / S)`
precisely when `T` is not an exact multiple of `S` (otherwise one extra
fetch observes the empty final page). -/
theorem C2_termination_oracle :
    (∀ (ts : String) (p : Nat) (recs : List Rec), recs ≠ [] →
        ((fetch_data_page (FetchOut.ok (Body.msgList recs)) ts p).2 = true ↔
          PAGE_SIZE ≤ recs.length)) ∧
      ∀ (src : Nat → Rec) (T : Nat) (tsOf : Nat → String),
        T / PAGE_SIZE ≤ 46 →
        (main_loop (envSrc src T) tsOf).2 = T / PAGE_SIZE + 1 ∧
        (main_loop (envSrc src T) tsOf).1 = srcDataset src tsOf T ∧
        (main_loop (envSrc src T) tsOf).1.length = T ∧
        (T % PAGE_SIZE ≠ 0 →
          T / PAGE_SIZE + 1 = (T + PAGE_SIZE - 1) / PAGE_SIZE) := by
  constructor
  · intro ts p recs hne
    rcases recs with _ | ⟨r, rs⟩
    · exact absurd rfl hne
    · simp [fetch_data_page, extract_message_data]
  · intro src T tsOf hq
    have h := envSrc_run src T tsOf hq (T / PAGE_SIZE) (le_refl _) []
      (by simp)
    rw [Nat.sub_self] at h
    have hchunks : ((List.range (T / PAGE_SIZE + 1)).map
        (fun i => pageChunkSrc src tsOf T (0 + i))).flatten =
        srcDataset src tsOf T := by
      unfold srcDataset
      congr 1
      refine List.map_congr_left ?_
      intro i _
      rw [Nat.zero_add]
    refine ⟨?_, ?_, ?_, ?_⟩
    · have h1 := congrArg Prod.snd h.1
      exact h1
    · have h2 := congrArg Prod.fst h.1
      simp only [List.nil_append] at h2
      rw [hchunks] at h2
      exact h2
    · have h3 := h.2
      simp only [List.length_nil, Nat.zero_mul, Nat.zero_add,
        Nat.sub_zero] at h3
      exact h3
    · intro hr
      simp only [PAGE_SIZE] at *
      omega

/-- Witness for C2 (amended): the oracle at a concrete one-record page,
and the full run against the one-record upstream `T = 1` with
distinguishable records. -/
theorem C2_termination_oracle_witness :
    (([baseRec] : List Rec) ≠ [] ∧
      ((fetch_data_page (FetchOut.ok (Body.msgList [baseRec])) "t" 1).2 =
          true ↔ PAGE_SIZE ≤ ([baseRec] : List Rec).length)) ∧
      (1 : Nat) / PAGE_SIZE ≤ 46 ∧
      (main_loop (envSrc srcId 1) tsOf0).2 = 1 / PAGE_SIZE + 1 ∧
      (main_loop (envSrc srcId 1) tsOf0).1 = srcDataset srcId tsOf0 1 ∧
      (main_loop (envSrc srcId 1) tsOf0).1.length = 1 ∧
      ((1 : Nat) % PAGE_SIZE ≠ 0 →
        1 / PAGE_SIZE + 1 = (1 + PAGE_SIZE - 1) / PAGE_SIZE) := by
  have h := C2_termination_oracle.2 srcId 1 tsOf0 (by norm_num [PAGE_SIZE])
  exact ⟨⟨by decide, C2_termination_oracle.1 "t" 1 [baseRec] (by decide)⟩,
    by norm_num [PAGE_SIZE], h.1, h.2.1, h.2.2.1, h.2.2.2⟩

end ApiCollector

namespace Normalizer

/-- Every fix-table entry repairs an `Ã`-led diagnostic pair into a
character that can start no table pair (it is not `Ã`) and end none (it is
out of the continuation range). -/
lemma fix_table_facts :
    ∀ t ∈ FIX_TABLE,
      t.1 = 0xC3 ∧ t.2.1 < 0xC0 ∧ 0xC0 ≤ t.2.2 ∧ t.2.2 ≠ 0xC3 := by
  decide

/-- What a successful table lookup tells about its key and repair. -/
lemma lookupFix_eq_some {a b g : Nat} (h : lookupFix a b = some g) :
    a = 0xC3 ∧ b < 0xC0 ∧ 0xC0 ≤ g ∧ g ≠ 0xC3 := by
  unfold lookupFix at h
  obtain ⟨t, ht, hg⟩ := Option.map_eq_some'.mp h
  have hmem := List.mem_of_find?_eq_some ht
  have hp := List.find?_some ht
  simp only [Bool.and_eq_true, beq_iff_eq] at hp
  have hfacts := fix_table_facts t hmem
  refine ⟨?_, ?_, ?_, ?_⟩ <;> omega

/-- A character other than `Ã` starts no table pair. -/
lemma lookupFix_none_first {a : Nat} (b : Nat) (ha : a ≠ 0xC3) :
    lookupFix a b = none := by
  unfold lookupFix
  rw [List.find?_eq_none.mpr]
  · rfl
  · intro t ht
    have h1 := (fix_table_facts t ht).1
    simp only [Bool.and_eq_true, beq_iff_eq, not_and]
    intro h2
    omega

/-- A character out of the continuation range ends no table pair. -/
lemma lookupFix_none_snd (a : Nat) {b : Nat} (hb : 0xC0 ≤ b) :
    lookupFix a b = none := by
  unfold lookupFix
  rw [List.find?_eq_none.mpr]
  · rfl
  · intro t ht
    have h1 := (fix_table_facts t ht).2.1
    simp only [Bool.and_eq_true, beq_iff_eq, not_and]
    intro h2
    omega

/-- The head of a repaired nonempty text is either the original first
character or a repair character (which is outside the table ranges). -/
lemma applyTable_head (x : Nat) (xs : List Nat) :
    (applyTable (x :: xs)).head? = some x ∨
      ∃ g, (applyTable (x :: xs)).head? = some g ∧ 0xC0 ≤ g ∧ g ≠ 0xC3 := by
  cases xs with
  | nil => exact Or.inl rfl
  | cons b rest =>
    rcases hl : lookupFix x b with _ | g
    · left
      simp [applyTable, hl]
    · right
      exact ⟨g, by simp [applyTable, hl],
        (lookupFix_eq_some hl).2.2.1, (lookupFix_eq_some hl).2.2.2⟩

/-- Extending a fix-free text by a character forming no pair with its head
keeps it fix-free. -/
lemma noFix_cons (a : Nat) (l : List Nat)
    (h1 : ∀ b, l.head? = some b → lookupFix a b = none)
    (h2 : noFix l = true) : noFix (a :: l) = true := by
  cases l with
  | nil => rfl
  | cons b rest =>
    simp [noFix, h1 b rfl, h2]

/-- One pass of the fix table leaves no table pair behind: repairs start
no new pair and end none, and surviving characters never formed one. -/
lemma noFix_applyTable : ∀ s, noFix (applyTable s) = true := by
  intro s
  induction s using applyTable.induct with
  | case1 => rfl
  | case2 a => rfl
  | case3 a b rest g hl ih =>
    have hrw : applyTable (a :: b :: rest) = g :: applyTable rest := by
      simp [applyTable, hl]
    rw [hrw]
    refine noFix_cons g _ ?_ ih
    intro c _
    exact lookupFix_none_first c (lookupFix_eq_some hl).2.2.2
  | case4 a b rest hl ih =>
    have hrw : applyTable (a :: b :: rest) = a :: applyTable (b :: rest) := by
      simp [applyTable, hl]
    rw [hrw]
    refine noFix_cons a _ ?_ ih
    intro c hc
    rcases applyTable_head b rest with h | ⟨g, hg, hge, _⟩
    · rw [h] at hc
      cases hc
      exact hl
    · rw [hg] at hc
      cases hc
      exact lookupFix_none_snd a hge

/-- Fix-free text is a fixed point of the table pass: characters not in
the table pass through untouched. -/
lemma noFix_fixpoint (s : List Nat) : noFix s = true → applyTable s = s := by
  induction s using applyTable.induct with
  | case1 => intro _; rfl
  | case2 a => intro _; rfl
  | case3 a b rest g hl ih =>
    intro h
    simp [noFix, hl] at h
  | case4 a b rest hl ih =>
    intro h
    have h2 : noFix (b :: rest) = true := by
      simpa [noFix, hl] using h
    have hrw : applyTable (a :: b :: rest) = a :: applyTable (b :: rest) := by
      simp [applyTable, hl]
    rw [hrw, ih h2]

/-- The fix-table stage is idempotent. -/
lemma applyTable_idem (s : List Nat) :
    applyTable (applyTable s) = applyTable s :=
  noFix_fixpoint _ (noFix_applyTable s)

/-- Diagnostic-free text passes through the normalizer unchanged. -/
lemma fixText_id (s : List Nat) (h : hasDiag s = false) : fixText s = s := by
  simp [fixText, h]

/-- Diagnostic-free values pass through unchanged (non-text always). -/
lemma fixVal_id (v : V8) (h : diagV v = false) : fixVal v = v := by
  cases v with
  | txt s => simp [fixVal, fixText_id s (by simpa [diagV] using h)]
  | num x => rfl
  | boolean b => rfl
  | null => rfl

/-- Diagnostic-free records pass through unchanged. -/
lemma normRec_id (r : Rec8) (h : diagRec r = false) :
    r.map (fun kv => (kv.1, fixVal kv.2)) = r := by
  induction r with
  | nil => rfl
  | cons kv rest ih =>
    simp only [diagRec, List.any_cons, Bool.or_eq_false_iff] at h
    simp only [List.map_cons, fixVal_id kv.2 h.1]
    rw [ih (by simpa [diagRec] using h.2)]

/-- Diagnostic-free pages pass through the normalizer unchanged. -/
lemma normalize_id (p : Page8) (h : hasDiagPage p = false) :
    normalize p = p := by
  induction p with
  | nil => rfl
  | cons r rest ih =>
    simp only [hasDiagPage, List.any_cons, Bool.or_eq_false_iff] at h
    simp only [normalize, List.map_cons, normRec_id r h.1]
    have := ih (by simpa [hasDiagPage] using h.2)
    simpa [normalize] using this

/-- C8 counterexample: on the double-mojibake page with text
`Ã\x83Â©` (code points `[0xC3, 0x83, 0xC2, 0xA9]`, the UTF-8-as-Latin-1
corruption of `Ã©`, itself the corruption of `é`), one application of the
normalizer round-trips to `Ã©` `[0xC3, 0xA9]`, which a second application
repairs further to `é` `[0xE9]` — so `normalize (normalize p) ≠
normalize p` and idempotence fails for this page. -/
theorem C8_counterexample :
    normalize (normalize [[("campo", V8.txt [0xC3, 0x83, 0xC2, 0xA9])]]) ≠
      normalize [[("campo", V8.txt [0xC3, 0x83, 0xC2, 0xA9])]] := by
  decide

/-- C8 amended: the fix-table stage of the normalizer is idempotent, and
characters not in the diagnostic/fix tables pass through untouched:
already-correct pages (no diagnostic sequences) are left unchanged, and
the normalizer is idempotent on every page whose normalized form carries
no remaining diagnostic sequence (in particular single-level mojibake);
only nested mojibake, whose repair still looks mojibake-encoded, escapes
idempotence (see the counterexample). -/
theorem C8_normalizer_idempotence :
    (∀ s, applyTable (applyTable s) = applyTable s) ∧
      (∀ p, hasDiagPage p = false → normalize p = p) ∧
      (∀ p, hasDiagPage (normalize p) = false →
        normalize (normalize p) = normalize p) :=
  ⟨applyTable_idem, normalize_id, fun p h => normalize_id (normalize p) h⟩

/-- Witness for C8 (amended): a clean ASCII page passes through, and the
single-level mojibake page `Ã©` normalizes idempotently. -/
theorem C8_normalizer_idempotence_witness :
    hasDiagPage [[("campo", V8.txt [0x48, 0x6F, 0x6C, 0x61])]] = false ∧
      normalize [[("campo", V8.txt [0x48, 0x6F, 0x6C, 0x61])]] =
        [[("campo", V8.txt [0x48, 0x6F, 0x6C, 0x61])]] ∧
      hasDiagPage (normalize [[("x", V8.txt [0xC3, 0xA9])]]) = false ∧
      normalize (normalize [[("x", V8.txt [0xC3, 0xA9])]]) =
        normalize [[("x", V8.txt [0xC3, 0xA9])]] :=
  ⟨by decide, C8_normalizer_idempotence.2.1 _ (by decide), by decide,
   C8_normalizer_idempotence.2.2 _ (by decide)⟩

end Normalizer
